import Mathlib

/-!
Shallow embedding of the panel cut-layout optimizer (`src/optimizer.py`).

Python floats are modelled as exact rationals (`ℚ`); `np.arange` is modelled
by its documented semantics (`ceil((stop - start) / step)` evenly spaced
values starting at `start`).  Mutable state (the sheet list, the per-sheet
`used_space` list) is threaded explicitly; the `while` loop of
`optimize_layout` is structural recursion on the instance queue, which is
faithful because every queue element is created with `quantity = 1`, so each
loop iteration either pops exactly one instance or raises.
-/

namespace PPO

/-- A placed rectangle on a sheet: the dict
`{'x':…,'y':…,'w':…,'h':…,'panel':…}` appended to `sheet.used_space`
(the `'panel'` back-reference is display-only and carries no geometry,
so it is not modelled). -/
structure OccupiedRect where
  x : ℚ
  y : ℚ
  w : ℚ
  h : ℚ
deriving Repr, DecidableEq

/-- `Panel(width, height, quantity)` from `optimizer.py` (the mutable
`position`/`rotated` attributes are output bookkeeping recorded on the
sheets instead). -/
structure Panel where
  width : ℚ
  height : ℚ
  quantity : ℕ
deriving Repr, DecidableEq

/-- `StockSheet(width, height)` with its `used_space` list and
`efficiency` field. -/
structure StockSheet where
  width : ℚ
  height : ℚ
  used_space : List OccupiedRect
  efficiency : ℚ
deriving Repr, DecidableEq

/-- `np.arange(start, stop, step)`: `max 0 ⌈(stop - start) / step⌉` values
`start, start + step, start + 2·step, …`. -/
def arange (start stop step : ℚ) : List ℚ :=
  (List.range (⌈(stop - start) / step⌉).toNat).map (fun i : ℕ => start + (i : ℚ) * step)

/-- The overlap test of `find_position`: candidate `(x, y, w, h)` is clear of
the used rect `u` iff it lies at-or-beyond `u` on the x axis or on the y axis
(`x + w <= u.x or x >= u.x + u.w or y + h <= u.y or y >= u.y + u.h`). -/
def clearOf (x y w h : ℚ) (u : OccupiedRect) : Bool :=
  decide (x + w ≤ u.x ∨ x ≥ u.x + u.w ∨ y + h ≤ u.y ∨ y ≥ u.y + u.h)

/-- The `valid` flag computed for one candidate: clear of every used rect. -/
def validAt (used : List OccupiedRect) (x y w h : ℚ) : Bool :=
  used.all (clearOf x y w h)

/-- The running best of `find_position`: `can_place`, `best_x`, `best_y`,
`best_rotated`.  Python initialises `best_x`/`best_y` to `inf`, but the
update condition short-circuits on `not can_place`, so those values are
never compared before being overwritten; we initialise them to `0`. -/
structure FindState where
  can_place : Bool
  best_x : ℚ
  best_y : ℚ
  best_rotated : Bool
deriving Repr, DecidableEq

/-- Initial search state of `find_position`. -/
def initState : FindState := ⟨false, 0, 0, false⟩

/-- One candidate inspection in `find_position`: if the candidate is valid
and beats the current best in `(y, x)` lexicographic order (or nothing is
recorded yet), record it with the current orientation's `rotated` flag. -/
def considerCand (used : List OccupiedRect) (w h : ℚ) (rot : Bool)
    (st : FindState) (c : ℚ × ℚ) : FindState :=
  if validAt used c.1 c.2 w h ∧
      (st.can_place = false ∨ c.2 < st.best_y ∨ (c.2 = st.best_y ∧ c.1 < st.best_x)) then
    ⟨true, c.1, c.2, rot⟩
  else st

/-- Phase-1 candidates: the four corners adjusted for panel size, then for
each used rect the point at its right side and at its top side, filtered to
those within sheet bounds for this orientation. -/
def priorityPositions (sheet : StockSheet) (w h : ℚ) : List (ℚ × ℚ) :=
  ([((0 : ℚ), (0 : ℚ)), (sheet.width - w, 0), (0, sheet.height - h),
      (sheet.width - w, sheet.height - h)] ++
    sheet.used_space.flatMap (fun u => [(u.x + u.w, u.y), (u.x, u.y + u.h)])).filter
    (fun c => decide (0 ≤ c.1 ∧ c.1 ≤ sheet.width - w ∧ 0 ≤ c.2 ∧ c.2 ≤ sheet.height - h))

/-- Phase-2 candidates: the fallback grid
`for x in np.arange(0, sheet.width - w + step, step): for y in np.arange(0, sheet.height - h + step, step)`,
flattened in the loop's x-major order. -/
def gridPositions (sheet : StockSheet) (w h step : ℚ) : List (ℚ × ℚ) :=
  (arange 0 (sheet.width - w + step) step).flatMap
    (fun x => (arange 0 (sheet.height - h + step) step).map (fun y => (x, y)))

/-- An orientation `(w, h, rotated)` tried by `find_position`. -/
structure Orientation where
  w : ℚ
  h : ℚ
  rot : Bool
deriving Repr, DecidableEq

/-- Python's lexicographic `≤` on pairs, as produced by comparing 2-tuples. -/
def lex2 (a b : ℚ × ℚ) : Prop :=
  a.1 < b.1 ∨ (a.1 = b.1 ∧ a.2 ≤ b.2)

/-- Python's lexicographic `≤` on triples, as produced by comparing 3-tuples. -/
def lex3 (a b : ℚ × ℚ × ℚ) : Prop :=
  a.1 < b.1 ∨ (a.1 = b.1 ∧ lex2 a.2 b.2)

instance : DecidableRel lex2 := fun a b => by unfold lex2; infer_instance

instance : DecidableRel lex3 := fun a b => by unfold lex3; infer_instance

/-- The sort key for orientations:
`(-(w if w <= sheet.width else 0), -(h if h <= sheet.height else 0))`. -/
def orientationKey (sheet : StockSheet) (o : Orientation) : ℚ × ℚ :=
  (-(if o.w ≤ sheet.width then o.w else 0), -(if o.h ≤ sheet.height then o.h else 0))

/-- Comparison used to sort the orientation list. -/
def orientLE (sheet : StockSheet) (a b : Orientation) : Prop :=
  lex2 (orientationKey sheet a) (orientationKey sheet b)

instance (sheet : StockSheet) : DecidableRel (orientLE sheet) := fun a b => by
  unfold orientLE; infer_instance

/-- The orientation list of `find_position`: `(width, height, False)` always,
`(height, width, True)` only when the panel is not square, stably sorted by
`orientationKey` (Python's `list.sort` is a stable sort; so is
`List.insertionSort`). -/
def orientations (sheet : StockSheet) (panel : Panel) : List Orientation :=
  (([⟨panel.width, panel.height, false⟩] ++
      (if panel.width ≠ panel.height then [⟨panel.height, panel.width, true⟩] else [])) :
    List Orientation).insertionSort (orientLE sheet)

/-- The step of the fallback scan:
`min(panel.width, panel.height, sheet.width, sheet.height) * 0.001`
(Python's 4-argument `min` associates to the left). -/
def stepSize (sheet : StockSheet) (panel : Panel) : ℚ :=
  min (min (min panel.width panel.height) sheet.width) sheet.height * (1 / 1000)

/-- The body of the `for w, h, rotated in orientations` loop: skip an
orientation that exceeds the raw sheet extent; scan phase-1 candidates; scan
the fallback grid only when still nothing has been recorded. -/
def tryOrientation (sheet : StockSheet) (step : ℚ) (st : FindState)
    (o : Orientation) : FindState :=
  if o.w > sheet.width ∨ o.h > sheet.height then st
  else if ((priorityPositions sheet o.w o.h).foldl
      (considerCand sheet.used_space o.w o.h o.rot) st).can_place then
    (priorityPositions sheet o.w o.h).foldl
      (considerCand sheet.used_space o.w o.h o.rot) st
  else (gridPositions sheet o.w o.h step).foldl
    (considerCand sheet.used_space o.w o.h o.rot)
    ((priorityPositions sheet o.w o.h).foldl
      (considerCand sheet.used_space o.w o.h o.rot) st)

/-- `find_position(sheet, panel)` returning
`(can_place, best_x, best_y, best_rotated)` as a `FindState`. -/
def find_position (sheet : StockSheet) (panel : Panel) : FindState :=
  (orientations sheet panel).foldl (tryOrientation sheet (stepSize sheet panel)) initState

/-- Appending the accepted placement to a sheet: width/height swapped when
the accepted orientation is the rotated one. -/
def placeRect (sheet : StockSheet) (panel : Panel) (r : FindState) : StockSheet :=
  let w := if r.best_rotated then panel.height else panel.width
  let h := if r.best_rotated then panel.width else panel.height
  { sheet with used_space := sheet.used_space ++ [⟨r.best_x, r.best_y, w, h⟩] }

/-- The `for sheet in sheets` loop of `optimize_layout`: place on the first
sheet, in creation order, where `find_position` succeeds. -/
def tryExistingSheets (panel : Panel) : List StockSheet → Option (List StockSheet)
  | [] => none
  | s :: rest =>
    if (find_position s panel).can_place then
      some (placeRect s panel (find_position s panel) :: rest)
    else (tryExistingSheets panel rest).map (fun l => s :: l)

/-- The `while remaining_panels` loop of `optimize_layout`.  Every queue
element has `quantity = 1`, so each iteration pops the head (on success) or
raises `ValueError` (when even a fresh empty sheet rejects it). -/
def placeAll (stock_width stock_height : ℚ) :
    List Panel → List StockSheet → Except String (List StockSheet)
  | [], sheets => .ok sheets
  | panel :: rest, sheets =>
    match tryExistingSheets panel sheets with
    | some sheets2 => placeAll stock_width stock_height rest sheets2
    | none =>
      if (find_position ⟨stock_width, stock_height, [], 0⟩ panel).can_place then
        placeAll stock_width stock_height rest
          (sheets ++ [placeRect ⟨stock_width, stock_height, [], 0⟩ panel
            (find_position ⟨stock_width, stock_height, [], 0⟩ panel)])
      else
        .error "Panel is too large for stock sheet"

/-- The sort key of `optimize_layout`:
`(-max(p.width, p.height), -(p.width * p.height), -min(p.width, p.height))`. -/
def panelKey (p : Panel) : ℚ × ℚ × ℚ :=
  (-(max p.width p.height), -(p.width * p.height), -(min p.width p.height))

/-- Python's stable ascending comparison for
`key=lambda p: (-max(w,h), -(w*h), -min(w,h))`. -/
def panelLE (p q : Panel) : Prop :=
  lex3 (panelKey p) (panelKey q)

instance : DecidableRel panelLE := fun p q => by unfold panelLE; infer_instance

/-- The expansion loop of `optimize_layout`: `quantity` fresh unit instances
per input panel, in input order. -/
def expandPanels (panels : List Panel) : List Panel :=
  panels.flatMap (fun p => List.replicate p.quantity ⟨p.width, p.height, 1⟩)

/-- `panels_copy.sort(key=…)`: a stable sort by the descending size key
(Python's `list.sort` is a stable sort; so is `List.insertionSort`). -/
def sortPanels (panels : List Panel) : List Panel :=
  panels.insertionSort panelLE

/-- The final efficiency pass:
`efficiency = (used_area / (width * height)) * 100`. -/
def computeEfficiency (sheet : StockSheet) : StockSheet :=
  { sheet with efficiency :=
      ((sheet.used_space.map (fun u => u.w * u.h)).sum / (sheet.width * sheet.height)) * 100 }

/-- `optimize_layout(stock_width, stock_height, panels)`: expand, stably
sort, run the allocation loop starting from one empty sheet, then compute
every sheet's efficiency.  `ValueError` becomes `Except.error`. -/
def optimize_layout (stock_width stock_height : ℚ) (panels : List Panel) :
    Except String (List StockSheet) :=
  (placeAll stock_width stock_height (sortPanels (expandPanels panels))
      [⟨stock_width, stock_height, [], 0⟩]).map
    (fun sheets => sheets.map computeEfficiency)

/-! ### Specification-side definitions used to state the claims -/

/-- An orientation fits the raw sheet extent (the negation of the loop's
`if w > sheet.width or h > sheet.height: continue` guard). -/
def fitsO (sheet : StockSheet) (o : Orientation) : Prop :=
  o.w ≤ sheet.width ∧ o.h ≤ sheet.height

/-- The candidate positions `find_position` actually examines, tagged with
their orientation, replaying the search dynamics declaratively: an
orientation that does not fit contributes nothing; otherwise its phase-1
(priority) candidates are always examined, and its fallback grid candidates
are examined only when nothing has been recorded before this orientation
(`found`) and phase 1 contains no valid candidate. -/
def consideredFrom (sheet : StockSheet) (step : ℚ) :
    Bool → List Orientation → List (Orientation × (ℚ × ℚ))
  | _, [] => []
  | found, o :: os =>
    if o.w > sheet.width ∨ o.h > sheet.height then consideredFrom sheet step found os
    else
      (if found || (priorityPositions sheet o.w o.h).any
          (fun c => validAt sheet.used_space c.1 c.2 o.w o.h) then
        (priorityPositions sheet o.w o.h).map (fun c => (o, c))
      else
        ((priorityPositions sheet o.w o.h) ++ gridPositions sheet o.w o.h step).map
          (fun c => (o, c))) ++
      consideredFrom sheet step
        (found ||
          (priorityPositions sheet o.w o.h).any
            (fun c => validAt sheet.used_space c.1 c.2 o.w o.h) ||
          (gridPositions sheet o.w o.h step).any
            (fun c => validAt sheet.used_space c.1 c.2 o.w o.h)) os

/-- All candidates examined by `find_position sheet panel`. -/
def considered (sheet : StockSheet) (panel : Panel) : List (Orientation × (ℚ × ℚ)) :=
  consideredFrom sheet (stepSize sheet panel) false (orientations sheet panel)

/-- The spec's non-overlap relation on two placed rectangles: one lies
at-or-beyond the other on the x axis or on the y axis, so touching edges
(equality) count as non-overlapping. -/
def rectDisjoint (a b : OccupiedRect) : Prop :=
  a.x + a.w ≤ b.x ∨ b.x + b.w ≤ a.x ∨ a.y + a.h ≤ b.y ∨ b.y + b.h ≤ a.y

/-- The spec's wording of the fallback step size: 0.1% of
`min(panelWidth, panelHeight, sheetWidth, sheetHeight)`. -/
def stepSpec (sheet : StockSheet) (panel : Panel) : ℚ :=
  min (min panel.width panel.height) (min sheet.width sheet.height) / 1000

/-- The spec's sort key (positive form): primary `max(width, height)`,
secondary `width × height`, tertiary `min(width, height)`. -/
def specKey (p : Panel) : ℚ × ℚ × ℚ :=
  (max p.width p.height, p.width * p.height, min p.width p.height)

/-- Descending comparison on the spec's key: `p` may precede `q` in the
output iff `p`'s key is lexicographically at least `q`'s. -/
def specGE (p q : Panel) : Prop :=
  lex3 (specKey q) (specKey p)

/-- A sheet accepts a panel when `find_position` reports a position. -/
@[reducible] def accepts (sheet : StockSheet) (panel : Panel) : Prop :=
  (find_position sheet panel).can_place = true

/-- A panel fits an empty stock sheet in at least one orientation. -/
def fitsStock (W H : ℚ) (p : Panel) : Prop :=
  (p.width ≤ W ∧ p.height ≤ H) ∨ (p.height ≤ W ∧ p.width ≤ H)

deriving instance DecidableEq for Except

/-! ### Properties of the lexicographic comparisons -/

theorem lex2_refl (a : ℚ × ℚ) : lex2 a a := Or.inr ⟨rfl, le_refl _⟩

theorem lex2_trans {a b c : ℚ × ℚ} (hab : lex2 a b) (hbc : lex2 b c) : lex2 a c := by
  rcases hab with h1 | ⟨e1, h1⟩ <;> rcases hbc with h2 | ⟨e2, h2⟩
  · exact Or.inl (h1.trans h2)
  · exact Or.inl (e2 ▸ h1)
  · exact Or.inl (e1 ▸ h2)
  · exact Or.inr ⟨e1.trans e2, h1.trans h2⟩

theorem lex2_total (a b : ℚ × ℚ) : lex2 a b ∨ lex2 b a := by
  rcases lt_trichotomy a.1 b.1 with h | h | h
  · exact Or.inl (Or.inl h)
  · rcases le_total a.2 b.2 with h2 | h2
    · exact Or.inl (Or.inr ⟨h, h2⟩)
    · exact Or.inr (Or.inr ⟨h.symm, h2⟩)
  · exact Or.inr (Or.inl h)

theorem lex3_trans {a b c : ℚ × ℚ × ℚ} (hab : lex3 a b) (hbc : lex3 b c) : lex3 a c := by
  rcases hab with h1 | ⟨e1, h1⟩ <;> rcases hbc with h2 | ⟨e2, h2⟩
  · exact Or.inl (h1.trans h2)
  · exact Or.inl (e2 ▸ h1)
  · exact Or.inl (e1 ▸ h2)
  · exact Or.inr ⟨e1.trans e2, lex2_trans h1 h2⟩

theorem lex3_total (a b : ℚ × ℚ × ℚ) : lex3 a b ∨ lex3 b a := by
  rcases lt_trichotomy a.1 b.1 with h | h | h
  · exact Or.inl (Or.inl h)
  · rcases lex2_total a.2 b.2 with h2 | h2
    · exact Or.inl (Or.inr ⟨h, h2⟩)
    · exact Or.inr (Or.inr ⟨h.symm, h2⟩)
  · exact Or.inr (Or.inl h)

instance : IsTotal Panel panelLE := ⟨fun p q => lex3_total (panelKey p) (panelKey q)⟩

instance : IsTrans Panel panelLE := ⟨fun _ _ _ => lex3_trans⟩

instance (sheet : StockSheet) : IsTotal Orientation (orientLE sheet) :=
  ⟨fun a b => lex2_total (orientationKey sheet a) (orientationKey sheet b)⟩

instance (sheet : StockSheet) : IsTrans Orientation (orientLE sheet) :=
  ⟨fun _ _ _ => lex2_trans⟩

/-- When the code's strict improvement test `y < best_y or (y == best_y and
x < best_x)` fails, the recorded best is lexicographically no worse. -/
theorem lex2_of_not_improve {st : FindState} {c : ℚ × ℚ}
    (h : ¬(c.2 < st.best_y ∨ (c.2 = st.best_y ∧ c.1 < st.best_x))) :
    lex2 (st.best_y, st.best_x) (c.2, c.1) := by
  push_neg at h
  rcases lt_or_eq_of_le h.1 with h1 | h1
  · exact Or.inl h1
  · exact Or.inr ⟨h1, h.2 h1.symm⟩

/-! ### Candidate-scan fold lemmas -/

/-- Validity of a candidate for an orientation's dimensions. -/
def validFor (used : List OccupiedRect) (e : Orientation × (ℚ × ℚ)) : Prop :=
  validAt used e.2.1 e.2.2 e.1.w e.1.h = true

/-- A candidate failing the overlap test leaves the search state unchanged. -/
theorem considerCand_of_invalid {used w h rot st} {c : ℚ × ℚ}
    (hc : ¬ validAt used c.1 c.2 w h = true) :
    considerCand used w h rot st c = st := by
  unfold considerCand
  rw [if_neg]
  intro hcontra
  exact hc hcontra.1

/-- A scan over candidates that all fail the overlap test is a no-op. -/
theorem foldl_considerCand_invalid {used w h rot} :
    ∀ {cs : List (ℚ × ℚ)} {st : FindState},
      (∀ c ∈ cs, ¬ validAt used c.1 c.2 w h = true) →
      cs.foldl (considerCand used w h rot) st = st
  | [], _, _ => rfl
  | c :: cs, st, hinv => by
    rw [List.foldl_cons, considerCand_of_invalid (hinv c (List.mem_cons_self c cs))]
    exact foldl_considerCand_invalid fun c hc => hinv c (List.mem_cons_of_mem _ hc)

/-- One inspection sets `can_place` exactly when the candidate is valid or it
was set already. -/
theorem considerCand_can_place (used w h rot st) (c : ℚ × ℚ) :
    (considerCand used w h rot st c).can_place =
      (st.can_place || validAt used c.1 c.2 w h) := by
  unfold considerCand
  split
  · next hcond => simp [hcond.1]
  · next hcond =>
    by_cases hv : validAt used c.1 c.2 w h = true
    · by_cases hcp : st.can_place = true
      · simp [hcp]
      · exact absurd ⟨hv, Or.inl (by simpa using hcp)⟩ hcond
    · have hvf : validAt used c.1 c.2 w h = false := by simpa using hv
      simp [hvf]

/-- The scan over a candidate list sets `can_place` exactly when some
candidate is valid or it was set already. -/
theorem foldl_considerCand_can_place (used w h rot) :
    ∀ (cs : List (ℚ × ℚ)) (st : FindState),
      (cs.foldl (considerCand used w h rot) st).can_place =
        (st.can_place || cs.any (fun c => validAt used c.1 c.2 w h))
  | [], st => by simp
  | c :: cs, st => by
    rw [List.foldl_cons, foldl_considerCand_can_place used w h rot cs,
      considerCand_can_place]
    simp [Bool.or_assoc]

/-- Full specification of one candidate scan: (1) a recorded best is either
the incoming one or some valid scanned candidate, recorded verbatim with the
orientation's `rotated` flag; (2) the result is lexicographically `(y, x)`-
minimal among all valid scanned candidates; (3) the scan never worsens an
already-recorded best. -/
theorem foldl_considerCand_spec (used : List OccupiedRect) (w h : ℚ) (rot : Bool) :
    ∀ (cs : List (ℚ × ℚ)) (st : FindState),
      ((cs.foldl (considerCand used w h rot) st).can_place = true →
        (st.can_place = true ∧ cs.foldl (considerCand used w h rot) st = st) ∨
        ∃ c ∈ cs, validAt used c.1 c.2 w h = true ∧
          cs.foldl (considerCand used w h rot) st = ⟨true, c.1, c.2, rot⟩) ∧
      (∀ c ∈ cs, validAt used c.1 c.2 w h = true →
        lex2 ((cs.foldl (considerCand used w h rot) st).best_y,
          (cs.foldl (considerCand used w h rot) st).best_x) (c.2, c.1)) ∧
      (st.can_place = true →
        lex2 ((cs.foldl (considerCand used w h rot) st).best_y,
          (cs.foldl (considerCand used w h rot) st).best_x) (st.best_y, st.best_x))
  | [], st => by
    exact ⟨fun hcp => Or.inl ⟨hcp, rfl⟩,
      fun c hc => absurd hc (List.not_mem_nil c),
      fun _ => lex2_refl _⟩
  | c :: cs, st => by
    have IH := foldl_considerCand_spec used w h rot cs (considerCand used w h rot st c)
    rw [List.foldl_cons]
    by_cases hcond : validAt used c.1 c.2 w h = true ∧
        (st.can_place = false ∨ c.2 < st.best_y ∨ (c.2 = st.best_y ∧ c.1 < st.best_x))
    · have hst : considerCand used w h rot st c = ⟨true, c.1, c.2, rot⟩ := by
        unfold considerCand
        rw [if_pos hcond]
      rw [hst] at IH ⊢
      refine ⟨?_, ?_, ?_⟩
      · intro hcp
        rcases IH.1 hcp with ⟨_, heq⟩ | ⟨c2, hc2, hv2, heq⟩
        · exact Or.inr ⟨c, List.mem_cons_self c cs, hcond.1, heq⟩
        · exact Or.inr ⟨c2, List.mem_cons_of_mem _ hc2, hv2, heq⟩
      · intro c0 hc0 hv0
        rcases List.mem_cons.mp hc0 with rfl | hc0
        · exact IH.2.2 rfl
        · exact IH.2.1 c0 hc0 hv0
      · intro hcp
        refine lex2_trans (IH.2.2 rfl) ?_
        rcases hcond.2 with hfalse | himp | ⟨heq, hlt⟩
        · rw [hcp] at hfalse
          exact absurd hfalse (by simp)
        · exact Or.inl himp
        · exact Or.inr ⟨heq, le_of_lt hlt⟩
    · have hst : considerCand used w h rot st c = st := by
        unfold considerCand
        rw [if_neg hcond]
      rw [hst] at IH ⊢
      refine ⟨?_, ?_, ?_⟩
      · intro hcp
        rcases IH.1 hcp with hl | ⟨c2, hc2, hv2, heq⟩
        · exact Or.inl hl
        · exact Or.inr ⟨c2, List.mem_cons_of_mem _ hc2, hv2, heq⟩
      · intro c0 hc0 hv0
        rcases List.mem_cons.mp hc0 with rfl | hc0
        · have hni : ¬(c0.2 < st.best_y ∨ (c0.2 = st.best_y ∧ c0.1 < st.best_x)) :=
            fun hd => hcond ⟨hv0, Or.inr hd⟩
          have hcp : st.can_place = true := by
            by_contra hcp
            exact hcond ⟨hv0, Or.inl (by simpa using hcp)⟩
          exact lex2_trans (IH.2.2 hcp) (lex2_of_not_improve hni)
        · exact IH.2.1 c0 hc0 hv0
      · exact IH.2.2

/-! ### Orientation-level lemmas -/

theorem not_guard_iff_fitsO {sheet : StockSheet} {o : Orientation} :
    ¬(o.w > sheet.width ∨ o.h > sheet.height) ↔ fitsO sheet o := by
  unfold fitsO
  rw [not_or, not_lt, not_lt]

theorem tryOrientation_of_unfit {sheet : StockSheet} {step : ℚ} {st : FindState}
    {o : Orientation} (h : o.w > sheet.width ∨ o.h > sheet.height) :
    tryOrientation sheet step st o = st := by
  unfold tryOrientation
  rw [if_pos h]

/-- Evolution of the `can_place` flag across one orientation. -/
theorem tryOrientation_can_place (sheet : StockSheet) (step : ℚ) (st : FindState)
    (o : Orientation) :
    (tryOrientation sheet step st o).can_place =
      (st.can_place ||
        (!decide (o.w > sheet.width ∨ o.h > sheet.height) &&
          ((priorityPositions sheet o.w o.h).any
              (fun c => validAt sheet.used_space c.1 c.2 o.w o.h) ||
            (gridPositions sheet o.w o.h step).any
              (fun c => validAt sheet.used_space c.1 c.2 o.w o.h)))) := by
  unfold tryOrientation
  by_cases hfit : o.w > sheet.width ∨ o.h > sheet.height
  · simp [hfit]
  · rw [if_neg hfit]
    by_cases hp : ((priorityPositions sheet o.w o.h).foldl
        (considerCand sheet.used_space o.w o.h o.rot) st).can_place = true
    · rw [if_pos hp]
      rw [foldl_considerCand_can_place] at hp ⊢
      simp only [Bool.or_eq_true] at hp
      rcases hp with h | h <;> simp [h, hfit]
    · rw [if_neg hp]
      rw [foldl_considerCand_can_place] at hp
      rw [foldl_considerCand_can_place, foldl_considerCand_can_place]
      simp only [Bool.or_eq_true, not_or] at hp
      have h1 : st.can_place = false := by simpa using hp.1
      have h2 : (priorityPositions sheet o.w o.h).any
          (fun c => validAt sheet.used_space c.1 c.2 o.w o.h) = false := by simpa using hp.2
      simp [h1, h2, hfit]

theorem consideredFrom_cons (sheet : StockSheet) (step : ℚ) (found : Bool)
    (o : Orientation) (os : List Orientation) :
    consideredFrom sheet step found (o :: os) =
      if o.w > sheet.width ∨ o.h > sheet.height then consideredFrom sheet step found os
      else
        (if found || (priorityPositions sheet o.w o.h).any
            (fun c => validAt sheet.used_space c.1 c.2 o.w o.h) then
          (priorityPositions sheet o.w o.h).map (fun c => (o, c))
        else
          ((priorityPositions sheet o.w o.h) ++ gridPositions sheet o.w o.h step).map
            (fun c => (o, c))) ++
        consideredFrom sheet step
          (found ||
            (priorityPositions sheet o.w o.h).any
              (fun c => validAt sheet.used_space c.1 c.2 o.w o.h) ||
            (gridPositions sheet o.w o.h step).any
              (fun c => validAt sheet.used_space c.1 c.2 o.w o.h)) os := rfl

/-- The considered-candidate list of one orientation step, together with the
fact that `tryOrientation` is exactly the scan of that list. -/
theorem tryOrientation_as_scan (sheet : StockSheet) (step : ℚ) (st : FindState)
    (o : Orientation) (os : List Orientation)
    (hfit : ¬(o.w > sheet.width ∨ o.h > sheet.height)) :
    ∃ L : List (ℚ × ℚ),
      tryOrientation sheet step st o =
        L.foldl (considerCand sheet.used_space o.w o.h o.rot) st ∧
      consideredFrom sheet step st.can_place (o :: os) =
        L.map (fun c => (o, c)) ++
          consideredFrom sheet step
            ((L.foldl (considerCand sheet.used_space o.w o.h o.rot) st).can_place) os := by
  by_cases hp : ((priorityPositions sheet o.w o.h).foldl
      (considerCand sheet.used_space o.w o.h o.rot) st).can_place = true
  · refine ⟨priorityPositions sheet o.w o.h, ?_, ?_⟩
    · unfold tryOrientation
      rw [if_neg hfit, if_pos hp]
    · have hany : (st.can_place || (priorityPositions sheet o.w o.h).any
          (fun c => validAt sheet.used_space c.1 c.2 o.w o.h)) = true := by
        rw [← foldl_considerCand_can_place]
        exact hp
      rw [consideredFrom_cons, if_neg hfit, if_pos hany, hp]
      rw [foldl_considerCand_can_place] at hp
      simp only [Bool.or_eq_true] at hp
      rcases hp with h | h <;> simp [h]
  · refine ⟨priorityPositions sheet o.w o.h ++ gridPositions sheet o.w o.h step, ?_, ?_⟩
    · unfold tryOrientation
      rw [if_neg hfit, if_neg hp, List.foldl_append]
    · have hany : (st.can_place || (priorityPositions sheet o.w o.h).any
          (fun c => validAt sheet.used_space c.1 c.2 o.w o.h)) = false := by
        rw [← foldl_considerCand_can_place]
        simpa using hp
      rw [consideredFrom_cons, if_neg hfit, if_neg (by simp [hany]),
        foldl_considerCand_can_place, List.any_append]
      simp only [Bool.or_eq_false_iff] at hany
      simp [hany.1, hany.2, Bool.or_assoc]

/-- Full specification of the orientation loop: provenance, `(y, x)`
lexicographic minimality over all considered candidates, and monotonicity. -/
theorem foldl_tryOrientation_spec (sheet : StockSheet) (step : ℚ) :
    ∀ (os : List Orientation) (st : FindState),
      ((os.foldl (tryOrientation sheet step) st).can_place = true →
        (st.can_place = true ∧ os.foldl (tryOrientation sheet step) st = st) ∨
        ∃ e ∈ consideredFrom sheet step st.can_place os,
          validFor sheet.used_space e ∧
          os.foldl (tryOrientation sheet step) st = ⟨true, e.2.1, e.2.2, e.1.rot⟩) ∧
      (∀ e ∈ consideredFrom sheet step st.can_place os,
        validFor sheet.used_space e →
        lex2 ((os.foldl (tryOrientation sheet step) st).best_y,
          (os.foldl (tryOrientation sheet step) st).best_x) (e.2.2, e.2.1)) ∧
      (st.can_place = true →
        lex2 ((os.foldl (tryOrientation sheet step) st).best_y,
          (os.foldl (tryOrientation sheet step) st).best_x) (st.best_y, st.best_x))
  | [], st => by
    exact ⟨fun hcp => Or.inl ⟨hcp, rfl⟩,
      fun e he => absurd he (List.not_mem_nil e),
      fun _ => lex2_refl _⟩
  | o :: os, st => by
    rw [List.foldl_cons]
    by_cases hfit : o.w > sheet.width ∨ o.h > sheet.height
    · rw [tryOrientation_of_unfit hfit, consideredFrom_cons, if_pos hfit]
      exact foldl_tryOrientation_spec sheet step os st
    · obtain ⟨L, hfold, hcands⟩ := tryOrientation_as_scan sheet step st o os hfit
      rw [hfold, hcands]
      have head := foldl_considerCand_spec sheet.used_space o.w o.h o.rot L st
      have IH := foldl_tryOrientation_spec sheet step os
        (L.foldl (considerCand sheet.used_space o.w o.h o.rot) st)
      refine ⟨?_, ?_, ?_⟩
      · intro hcp
        rcases IH.1 hcp with ⟨hcp1, heq1⟩ | ⟨e, he, hv, heq⟩
        · rw [heq1]
          rcases head.1 hcp1 with ⟨hcp0, heq0⟩ | ⟨c, hc, hv0, heq0⟩
          · exact Or.inl ⟨hcp0, heq0⟩
          · refine Or.inr ⟨(o, c), List.mem_append_left _ ?_, hv0, heq0⟩
            exact List.mem_map.mpr ⟨c, hc, rfl⟩
        · exact Or.inr ⟨e, List.mem_append_right _ he, hv, heq⟩
      · intro e he hv
        rcases List.mem_append.mp he with he1 | he2
        · obtain ⟨c, hc, rfl⟩ := List.mem_map.mp he1
          have hLcp : (L.foldl (considerCand sheet.used_space o.w o.h o.rot) st).can_place
              = true := by
            rw [foldl_considerCand_can_place]
            have : L.any (fun c => validAt sheet.used_space c.1 c.2 o.w o.h) = true :=
              List.any_eq_true.mpr ⟨c, hc, hv⟩
            simp [this]
          exact lex2_trans (IH.2.2 hLcp) (head.2.1 c hc hv)
        · exact IH.2.1 e he2 hv
      · intro hcp
        have hLcp : (L.foldl (considerCand sheet.used_space o.w o.h o.rot) st).can_place
            = true := by
          rw [foldl_considerCand_can_place]
          simp [hcp]
        exact lex2_trans (IH.2.2 hLcp) (head.2.2 hcp)

/-- Success of the orientation loop, characterised per orientation. -/
theorem foldl_tryOrientation_can_place (sheet : StockSheet) (step : ℚ) :
    ∀ (os : List Orientation) (st : FindState),
      ((os.foldl (tryOrientation sheet step) st).can_place = true ↔
        st.can_place = true ∨ ∃ o ∈ os, fitsO sheet o ∧
          ((priorityPositions sheet o.w o.h).any
              (fun c => validAt sheet.used_space c.1 c.2 o.w o.h) = true ∨
            (gridPositions sheet o.w o.h step).any
              (fun c => validAt sheet.used_space c.1 c.2 o.w o.h) = true))
  | [], st => by simp
  | o :: os, st => by
    rw [List.foldl_cons, foldl_tryOrientation_can_place sheet step os,
      tryOrientation_can_place]
    constructor
    · rintro (h | h)
      · simp only [Bool.or_eq_true, Bool.and_eq_true, Bool.not_eq_true',
          decide_eq_false_iff_not] at h
        rcases h with h | ⟨hfit, hany⟩
        · exact Or.inl h
        · refine Or.inr ⟨o, List.mem_cons_self o os, not_guard_iff_fitsO.mp hfit, ?_⟩
          simpa using hany
      · obtain ⟨o2, ho2, h2⟩ := h
        exact Or.inr ⟨o2, List.mem_cons_of_mem _ ho2, h2⟩
    · rintro (h | ⟨o2, ho2, hfit, hany⟩)
      · exact Or.inl (by simp [h])
      · rcases List.mem_cons.mp ho2 with rfl | ho2
        · refine Or.inl ?_
          have hg : decide (o2.w > sheet.width ∨ o2.h > sheet.height) = false := by
            simp [not_guard_iff_fitsO.mpr hfit]
          rcases hany with h | h <;> simp [hg, h]
        · exact Or.inr ⟨o2, ho2, hfit, hany⟩

/-- Everything in the considered list comes from a fitting orientation of the
list being scanned, and is one of its phase-1 or phase-2 candidates. -/
theorem mem_consideredFrom (sheet : StockSheet) (step : ℚ) :
    ∀ {found : Bool} {os : List Orientation} {e : Orientation × (ℚ × ℚ)},
      e ∈ consideredFrom sheet step found os →
      e.1 ∈ os ∧ fitsO sheet e.1 ∧
        e.2 ∈ priorityPositions sheet e.1.w e.1.h ++ gridPositions sheet e.1.w e.1.h step
  | _, [], e => by simp [consideredFrom]
  | found, o :: os, e => by
    rw [consideredFrom_cons]
    by_cases hfit : o.w > sheet.width ∨ o.h > sheet.height
    · rw [if_pos hfit]
      intro he
      obtain ⟨h1, h2, h3⟩ := mem_consideredFrom sheet step he
      exact ⟨List.mem_cons_of_mem _ h1, h2, h3⟩
    · rw [if_neg hfit]
      intro he
      rcases List.mem_append.mp he with he1 | he2
      · have he2 : e.1 = o ∧
            e.2 ∈ priorityPositions sheet o.w o.h ++ gridPositions sheet o.w o.h step := by
          split at he1
          · obtain ⟨c, hc, rfl⟩ := List.mem_map.mp he1
            exact ⟨rfl, List.mem_append_left _ hc⟩
          · obtain ⟨c, hc, rfl⟩ := List.mem_map.mp he1
            exact ⟨rfl, hc⟩
        refine ⟨he2.1 ▸ List.mem_cons_self o os, ?_, ?_⟩
        · rw [he2.1]
          exact not_guard_iff_fitsO.mp hfit
        · rw [he2.1]
          exact he2.2
      · obtain ⟨h1, h2, h3⟩ := mem_consideredFrom sheet step he2
        exact ⟨List.mem_cons_of_mem _ h1, h2, h3⟩

/-- Membership in the orientation list, reduced to the unsorted base list. -/
theorem mem_orientations {sheet : StockSheet} {panel : Panel} {o : Orientation} :
    o ∈ orientations sheet panel ↔
      o = ⟨panel.width, panel.height, false⟩ ∨
        (panel.width ≠ panel.height ∧ o = ⟨panel.height, panel.width, true⟩) := by
  unfold orientations
  rw [(List.perm_insertionSort _ _).mem_iff]
  by_cases hsq : panel.width ≠ panel.height
  · simp [hsq, or_comm]
  · simp [hsq]

/-- A successful `find_position` records a considered valid candidate
verbatim together with its orientation's flag, and that candidate is
`(y, x)`-minimal among all considered valid candidates. -/
theorem find_position_success {sheet : StockSheet} {panel : Panel}
    (h : (find_position sheet panel).can_place = true) :
    ∃ e ∈ considered sheet panel,
      validFor sheet.used_space e ∧
      find_position sheet panel = ⟨true, e.2.1, e.2.2, e.1.rot⟩ ∧
      ∀ e2 ∈ considered sheet panel, validFor sheet.used_space e2 →
        lex2 (e.2.2, e.2.1) (e2.2.2, e2.2.1) := by
  have spec := foldl_tryOrientation_spec sheet (stepSize sheet panel)
    (orientations sheet panel) initState
  rcases spec.1 h with ⟨hfalse, _⟩ | ⟨e, he, hv, heq⟩
  · exact absurd hfalse (by simp [initState])
  · refine ⟨e, he, hv, heq, fun e2 he2 hv2 => ?_⟩
    have hmin := spec.2.1 e2 he2 hv2
    rw [heq] at hmin
    exact hmin

/-- `find_position` succeeds iff some fitting orientation has a valid
phase-1 or phase-2 candidate. -/
theorem find_position_can_place_iff (sheet : StockSheet) (panel : Panel) :
    (find_position sheet panel).can_place = true ↔
      ∃ o ∈ orientations sheet panel, fitsO sheet o ∧
        ((priorityPositions sheet o.w o.h).any
            (fun c => validAt sheet.used_space c.1 c.2 o.w o.h) = true ∨
          (gridPositions sheet o.w o.h (stepSize sheet panel)).any
            (fun c => validAt sheet.used_space c.1 c.2 o.w o.h) = true) := by
  unfold find_position
  rw [foldl_tryOrientation_can_place]
  simp [initState]

/-- The recorded position of a successful search passes the overlap test
against every already-placed rectangle, at the dimensions selected by the
returned `rotated` flag. -/
theorem find_position_valid_dims {sheet : StockSheet} {panel : Panel}
    (h : (find_position sheet panel).can_place = true) :
    validAt sheet.used_space (find_position sheet panel).best_x
      (find_position sheet panel).best_y
      (if (find_position sheet panel).best_rotated then panel.height else panel.width)
      (if (find_position sheet panel).best_rotated then panel.width else panel.height) =
      true := by
  obtain ⟨e, he, hv, heq, _⟩ := find_position_success h
  obtain ⟨hmem, _, _⟩ := mem_consideredFrom sheet (stepSize sheet panel) he
  rw [mem_orientations] at hmem
  rcases hmem with ho | ⟨_, ho⟩ <;>
    · rw [heq, ho]
      unfold validFor at hv
      rw [ho] at hv
      simpa using hv

/-- `(0, 0)` is always a phase-1 candidate of a fitting orientation. -/
theorem zero_mem_priorityPositions {sheet : StockSheet} {w h : ℚ}
    (hw : w ≤ sheet.width) (hh : h ≤ sheet.height) :
    ((0 : ℚ), (0 : ℚ)) ∈ priorityPositions sheet w h := by
  unfold priorityPositions
  rw [List.mem_filter]
  refine ⟨List.mem_append_left _ (List.mem_cons_self _ _), ?_⟩
  simp [sub_nonneg.mpr hw, sub_nonneg.mpr hh]

/-- On an empty sheet `find_position` succeeds iff the panel fits in at
least one orientation. -/
theorem find_position_empty_iff (W H : ℚ) (eff : ℚ) (panel : Panel) :
    (find_position ⟨W, H, [], eff⟩ panel).can_place = true ↔
      ((panel.width ≤ W ∧ panel.height ≤ H) ∨
        (panel.height ≤ W ∧ panel.width ≤ H)) := by
  rw [find_position_can_place_iff]
  constructor
  · rintro ⟨o, ho, hfit, -⟩
    rw [mem_orientations] at ho
    rcases ho with rfl | ⟨-, rfl⟩
    · exact Or.inl hfit
    · exact Or.inr hfit
  · intro hor
    by_cases h1 : panel.width ≤ W ∧ panel.height ≤ H
    · refine ⟨⟨panel.width, panel.height, false⟩, mem_orientations.mpr (Or.inl rfl),
        h1, Or.inl ?_⟩
      refine List.any_eq_true.mpr ⟨(0, 0), zero_mem_priorityPositions h1.1 h1.2, ?_⟩
      simp [validAt]
    · have h2 : panel.height ≤ W ∧ panel.width ≤ H := hor.resolve_left h1
      have hne : panel.width ≠ panel.height := by
        intro heq
        rw [heq] at h1
        rw [← heq] at h2
        exact h1 ⟨heq ▸ h2.1, heq ▸ h2.2⟩
      refine ⟨⟨panel.height, panel.width, true⟩,
        mem_orientations.mpr (Or.inr ⟨hne, rfl⟩), h2, Or.inl ?_⟩
      refine List.any_eq_true.mpr ⟨(0, 0), zero_mem_priorityPositions h2.1 h2.2, ?_⟩
      simp [validAt]

/-- A panel that fits the stock in neither orientation is rejected by every
sheet with the stock's dimensions. -/
theorem find_position_unfit {W H : ℚ} {sheet : StockSheet} {panel : Panel}
    (hW : sheet.width = W) (hH : sheet.height = H)
    (h : ¬((panel.width ≤ W ∧ panel.height ≤ H) ∨
      (panel.height ≤ W ∧ panel.width ≤ H))) :
    (find_position sheet panel).can_place = false := by
  rw [← Bool.not_eq_true, find_position_can_place_iff]
  rintro ⟨o, ho, hfit, -⟩
  rw [mem_orientations] at ho
  rcases ho with rfl | ⟨-, rfl⟩
  · exact h (Or.inl (by rw [← hW, ← hH]; exact hfit))
  · exact h (Or.inr (by rw [← hW, ← hH]; exact hfit))

/-! ### Allocator-level lemmas -/

theorem tryExistingSheets_eq_none_iff (panel : Panel) :
    ∀ sheets : List StockSheet,
      tryExistingSheets panel sheets = none ↔ ∀ s ∈ sheets, ¬ accepts s panel
  | [] => by simp [tryExistingSheets]
  | s :: rest => by
    unfold tryExistingSheets
    by_cases hs : (find_position s panel).can_place = true
    · simp [hs, accepts]
    · rw [if_neg hs, Option.map_eq_none', tryExistingSheets_eq_none_iff panel rest]
      constructor
      · intro hrest s2 hs2
        rcases List.mem_cons.mp hs2 with rfl | hs2
        · exact hs
        · exact hrest s2 hs2
      · intro hall s2 hs2
        exact hall s2 (List.mem_cons_of_mem _ hs2)

theorem tryExistingSheets_first_fit (panel : Panel) :
    ∀ (sheets : List StockSheet) (i : ℕ) (hi : i < sheets.length),
      (∀ s ∈ sheets.take i, ¬ accepts s panel) →
      accepts (sheets.get ⟨i, hi⟩) panel →
      tryExistingSheets panel sheets =
        some (sheets.set i (placeRect (sheets.get ⟨i, hi⟩) panel
          (find_position (sheets.get ⟨i, hi⟩) panel)))
  | [], i, hi => by simp at hi
  | s :: rest, 0, hi => by
    intro _ hacc
    unfold tryExistingSheets
    have hacc2 : (find_position s panel).can_place = true := hacc
    rw [if_pos hacc2]
    rfl
  | s :: rest, i + 1, hi => by
    intro htake hacc
    unfold tryExistingSheets
    have hs : ¬ accepts s panel := htake s (by simp [List.take_succ_cons])
    have hs2 : ¬ (find_position s panel).can_place = true := hs
    rw [if_neg hs2]
    have IH := tryExistingSheets_first_fit panel rest i
      (by simpa using hi)
      (fun s2 hs2 => htake s2 (by simp [List.take_succ_cons, hs2]))
      (by simpa using hacc)
    rw [IH]
    rfl

theorem placeRect_width (sheet : StockSheet) (panel : Panel) (r : FindState) :
    (placeRect sheet panel r).width = sheet.width := rfl

theorem placeRect_height (sheet : StockSheet) (panel : Panel) (r : FindState) :
    (placeRect sheet panel r).height = sheet.height := rfl

theorem tryExistingSheets_dims {W H : ℚ} {panel : Panel} :
    ∀ {sheets out : List StockSheet}, tryExistingSheets panel sheets = some out →
      (∀ s ∈ sheets, s.width = W ∧ s.height = H) →
      (∀ s ∈ out, s.width = W ∧ s.height = H)
  | [], out, hout => by simp [tryExistingSheets] at hout
  | s :: rest, out, hout => by
    intro hdims
    unfold tryExistingSheets at hout
    by_cases hs : (find_position s panel).can_place = true
    · rw [if_pos hs] at hout
      obtain rfl := Option.some_injective _ hout
      intro s2 hs2
      rcases List.mem_cons.mp hs2 with rfl | hs2
      · exact hdims s (List.mem_cons_self _ _)
      · exact hdims s2 (List.mem_cons_of_mem _ hs2)
    · rw [if_neg hs] at hout
      obtain ⟨out2, hout2, rfl⟩ := Option.map_eq_some'.mp hout
      intro s2 hs2
      rcases List.mem_cons.mp hs2 with rfl | hs2
      · exact hdims s2 (List.mem_cons_self _ _)
      · exact tryExistingSheets_dims hout2
          (fun s3 hs3 => hdims s3 (List.mem_cons_of_mem _ hs3)) s2 hs2

theorem placeRect_count (sheet : StockSheet) (panel : Panel) (r : FindState) :
    (placeRect sheet panel r).used_space.length = sheet.used_space.length + 1 := by
  unfold placeRect
  simp

theorem tryExistingSheets_count {panel : Panel} :
    ∀ {sheets out : List StockSheet}, tryExistingSheets panel sheets = some out →
      (out.map (fun s => s.used_space.length)).sum =
        (sheets.map (fun s => s.used_space.length)).sum + 1
  | [], out, hout => by simp [tryExistingSheets] at hout
  | s :: rest, out, hout => by
    unfold tryExistingSheets at hout
    by_cases hs : (find_position s panel).can_place = true
    · rw [if_pos hs] at hout
      obtain rfl := Option.some_injective _ hout
      simp [placeRect_count]
      ring
    · rw [if_neg hs] at hout
      obtain ⟨out2, hout2, rfl⟩ := Option.map_eq_some'.mp hout
      have IH := tryExistingSheets_count hout2
      simp [IH]
      ring

theorem rectDisjoint_of_clearOf {x y w h : ℚ} {u : OccupiedRect}
    (hc : clearOf x y w h u = true) : rectDisjoint u ⟨x, y, w, h⟩ := by
  have hp := of_decide_eq_true hc
  rcases hp with h1 | h1 | h1 | h1
  · exact Or.inr (Or.inl h1)
  · exact Or.inl h1
  · exact Or.inr (Or.inr (Or.inr h1))
  · exact Or.inr (Or.inr (Or.inl h1))

/-- Placing an accepted position preserves pairwise disjointness. -/
theorem placeRect_pairwise {sheet : StockSheet} {panel : Panel}
    (hcp : (find_position sheet panel).can_place = true)
    (hpw : sheet.used_space.Pairwise rectDisjoint) :
    (placeRect sheet panel (find_position sheet panel)).used_space.Pairwise rectDisjoint := by
  have hv := find_position_valid_dims hcp
  unfold placeRect
  simp only
  rw [List.pairwise_append]
  refine ⟨hpw, List.pairwise_singleton _ _, ?_⟩
  intro a ha b hb
  rw [List.mem_singleton] at hb
  subst hb
  exact rectDisjoint_of_clearOf (List.all_eq_true.mp hv a ha)

theorem tryExistingSheets_pairwise {panel : Panel} :
    ∀ {sheets out : List StockSheet}, tryExistingSheets panel sheets = some out →
      (∀ s ∈ sheets, s.used_space.Pairwise rectDisjoint) →
      (∀ s ∈ out, s.used_space.Pairwise rectDisjoint)
  | [], out, hout => by simp [tryExistingSheets] at hout
  | s :: rest, out, hout => by
    intro hpw
    unfold tryExistingSheets at hout
    by_cases hs : (find_position s panel).can_place = true
    · rw [if_pos hs] at hout
      obtain rfl := Option.some_injective _ hout
      intro s2 hs2
      rcases List.mem_cons.mp hs2 with rfl | hs2
      · exact placeRect_pairwise hs (hpw s (List.mem_cons_self _ _))
      · exact hpw s2 (List.mem_cons_of_mem _ hs2)
    · rw [if_neg hs] at hout
      obtain ⟨out2, hout2, rfl⟩ := Option.map_eq_some'.mp hout
      intro s2 hs2
      rcases List.mem_cons.mp hs2 with rfl | hs2
      · exact hpw s2 (List.mem_cons_self _ _)
      · exact tryExistingSheets_pairwise hout2
          (fun s3 hs3 => hpw s3 (List.mem_cons_of_mem _ hs3)) s2 hs2

/-- Every sheet produced by the allocation loop has pairwise disjoint
placements, given that the incoming sheets do. -/
theorem placeAll_ok_pairwise (W H : ℚ) :
    ∀ (queue : List Panel) (sheets out : List StockSheet),
      placeAll W H queue sheets = .ok out →
      (∀ s ∈ sheets, s.used_space.Pairwise rectDisjoint) →
      ∀ s ∈ out, s.used_space.Pairwise rectDisjoint
  | [], sheets, out => by
    intro hout hpw
    unfold placeAll at hout
    obtain rfl : sheets = out := by
      cases hout
      rfl
    exact hpw
  | panel :: rest, sheets, out => by
    intro hout hpw
    unfold placeAll at hout
    cases htry : tryExistingSheets panel sheets with
    | some sheets2 =>
      rw [htry] at hout
      exact placeAll_ok_pairwise W H rest sheets2 out hout
        (tryExistingSheets_pairwise htry hpw)
    | none =>
      rw [htry] at hout
      by_cases hcp : (find_position ⟨W, H, [], 0⟩ panel).can_place = true
      · rw [if_pos hcp] at hout
        refine placeAll_ok_pairwise W H rest _ out hout ?_
        intro s hs
        rcases List.mem_append.mp hs with hs | hs
        · exact hpw s hs
        · rw [List.mem_singleton] at hs
          subst hs
          exact placeRect_pairwise hcp (by simp)
      · rw [if_neg hcp] at hout
        exact absurd hout (by simp)

/-- The allocation loop places exactly one rectangle per queue element. -/
theorem placeAll_ok_count (W H : ℚ) :
    ∀ (queue : List Panel) (sheets out : List StockSheet),
      placeAll W H queue sheets = .ok out →
      (out.map (fun s => s.used_space.length)).sum =
        (sheets.map (fun s => s.used_space.length)).sum + queue.length
  | [], sheets, out => by
    intro hout
    unfold placeAll at hout
    obtain rfl : sheets = out := by
      cases hout
      rfl
    simp
  | panel :: rest, sheets, out => by
    intro hout
    unfold placeAll at hout
    cases htry : tryExistingSheets panel sheets with
    | some sheets2 =>
      rw [htry] at hout
      have IH := placeAll_ok_count W H rest sheets2 out hout
      rw [IH, tryExistingSheets_count htry]
      simp
      ring
    | none =>
      rw [htry] at hout
      by_cases hcp : (find_position ⟨W, H, [], 0⟩ panel).can_place = true
      · rw [if_pos hcp] at hout
        have IH := placeAll_ok_count W H rest _ out hout
        rw [IH]
        simp [placeRect_count]
        ring
      · rw [if_neg hcp] at hout
        exact absurd hout (by simp)

/-- If every queued panel fits the stock, the allocation loop succeeds. -/
theorem placeAll_ok_of_fits (W H : ℚ) :
    ∀ (queue : List Panel) (sheets : List StockSheet),
      (∀ p ∈ queue, fitsStock W H p) →
      ∃ out, placeAll W H queue sheets = .ok out
  | [], sheets, _ => ⟨sheets, rfl⟩
  | panel :: rest, sheets, hfits => by
    unfold placeAll
    cases htry : tryExistingSheets panel sheets with
    | some sheets2 =>
      exact placeAll_ok_of_fits W H rest sheets2
        (fun p hp => hfits p (List.mem_cons_of_mem _ hp))
    | none =>
      have hcp : (find_position ⟨W, H, [], 0⟩ panel).can_place = true :=
        (find_position_empty_iff W H 0 panel).mpr (hfits panel (List.mem_cons_self _ _))
      rw [if_pos hcp]
      exact placeAll_ok_of_fits W H rest _
        (fun p hp => hfits p (List.mem_cons_of_mem _ hp))

/-- If some queued panel fits the stock in neither orientation, and every
sheet in play has the stock's dimensions, the allocation loop raises. -/
theorem placeAll_error_of_unfit (W H : ℚ) :
    ∀ (queue : List Panel) (sheets : List StockSheet),
      (∃ p ∈ queue, ¬ fitsStock W H p) →
      (∀ s ∈ sheets, s.width = W ∧ s.height = H) →
      ∃ msg, placeAll W H queue sheets = .error msg
  | [], _, hex => by
    obtain ⟨p, hp, _⟩ := hex
    exact absurd hp (List.not_mem_nil p)
  | panel :: rest, sheets, hex => by
    intro hdims
    unfold placeAll
    by_cases hhead : fitsStock W H panel
    · have hrest : ∃ p ∈ rest, ¬ fitsStock W H p := by
        obtain ⟨p, hp, hnp⟩ := hex
        rcases List.mem_cons.mp hp with rfl | hp
        · exact absurd hhead hnp
        · exact ⟨p, hp, hnp⟩
      cases htry : tryExistingSheets panel sheets with
      | some sheets2 =>
        exact placeAll_error_of_unfit W H rest sheets2 hrest
          (tryExistingSheets_dims htry hdims)
      | none =>
        have hcp : (find_position ⟨W, H, [], 0⟩ panel).can_place = true :=
          (find_position_empty_iff W H 0 panel).mpr hhead
        rw [if_pos hcp]
        refine placeAll_error_of_unfit W H rest _ hrest ?_
        intro s hs
        rcases List.mem_append.mp hs with hs | hs
        · exact hdims s hs
        · rw [List.mem_singleton] at hs
          subst hs
          exact ⟨rfl, rfl⟩
    · have htry : tryExistingSheets panel sheets = none := by
        rw [tryExistingSheets_eq_none_iff]
        intro s hs hacc
        have := find_position_unfit (hdims s hs).1 (hdims s hs).2 hhead
        rw [accepts] at hacc
        rw [this] at hacc
        exact absurd hacc (by simp)
      rw [htry]
      have hcp : ¬ (find_position ⟨W, H, [], 0⟩ panel).can_place = true := by
        rw [find_position_empty_iff W H 0 panel]
        exact hhead
      rw [if_neg hcp]
      exact ⟨_, rfl⟩

/-! ### Queue lemmas -/

theorem mem_expandPanels {ps : List Panel} {q : Panel} :
    q ∈ expandPanels ps ↔ ∃ p ∈ ps, 0 < p.quantity ∧ q = ⟨p.width, p.height, 1⟩ := by
  unfold expandPanels
  rw [List.mem_flatMap]
  constructor
  · rintro ⟨p, hp, hq⟩
    obtain ⟨hn, hq2⟩ := List.mem_replicate.mp hq
    exact ⟨p, hp, Nat.pos_of_ne_zero hn, hq2⟩
  · rintro ⟨p, hp, hpos, rfl⟩
    exact ⟨p, hp, List.mem_replicate.mpr ⟨Nat.pos_iff_ne_zero.mp hpos, rfl⟩⟩

theorem expandPanels_length (ps : List Panel) :
    (expandPanels ps).length = (ps.map (fun p => p.quantity)).sum := by
  induction ps with
  | nil => rfl
  | cons p rest ih =>
    unfold expandPanels at ih ⊢
    rw [List.flatMap_cons, List.length_append, List.length_replicate, ih,
      List.map_cons, List.sum_cons]

theorem mem_sortPanels {ps : List Panel} {q : Panel} :
    q ∈ sortPanels ps ↔ q ∈ ps :=
  (List.perm_insertionSort _ _).mem_iff

theorem sortPanels_length (ps : List Panel) : (sortPanels ps).length = ps.length :=
  List.length_insertionSort _ _

/-- **C3.** `optimize_layout` raises `InputError` iff some spec (of positive
quantity) fits an empty stock sheet in neither orientation — precisely
`NOT((w≤W and h≤H) or (h≤W and w≤H))` — and on success (an `Except.ok`
value, so no partial sheet list accompanies an error) the returned sheets
carry exactly one placed rectangle per requested instance:
`Σ placed = Σ quantities`. -/
theorem C3_input_error_iff (W H : ℚ) (ps : List Panel)
    (hq : ∀ p ∈ ps, 1 ≤ p.quantity) :
    ((∃ msg, optimize_layout W H ps = .error msg) ↔
      ∃ p ∈ ps, ¬((p.width ≤ W ∧ p.height ≤ H) ∨ (p.height ≤ W ∧ p.width ≤ H))) ∧
    (∀ sheets, optimize_layout W H ps = .ok sheets →
      (sheets.map (fun s => s.used_space.length)).sum =
        (ps.map (fun p => p.quantity)).sum) := by
  constructor
  · constructor
    · rintro ⟨msg, hmsg⟩
      by_contra hall
      push_neg at hall
      have hfits : ∀ q ∈ sortPanels (expandPanels ps), fitsStock W H q := by
        intro q hqmem
        obtain ⟨p, hp, _, rfl⟩ := mem_expandPanels.mp (mem_sortPanels.mp hqmem)
        exact hall p hp
      obtain ⟨out, hout⟩ := placeAll_ok_of_fits W H
        (sortPanels (expandPanels ps)) [⟨W, H, [], 0⟩] hfits
      unfold optimize_layout at hmsg
      rw [hout] at hmsg
      exact absurd hmsg (by simp [Except.map])
    · rintro ⟨p, hp, hnp⟩
      have hqueue : (⟨p.width, p.height, 1⟩ : Panel) ∈ sortPanels (expandPanels ps) :=
        mem_sortPanels.mpr (mem_expandPanels.mpr ⟨p, hp, hq p hp, rfl⟩)
      obtain ⟨msg, hmsg⟩ := placeAll_error_of_unfit W H
        (sortPanels (expandPanels ps)) [⟨W, H, [], 0⟩]
        ⟨⟨p.width, p.height, 1⟩, hqueue, hnp⟩
        (by simp)
      refine ⟨msg, ?_⟩
      unfold optimize_layout
      rw [hmsg]
      rfl
  · intro sheets hsheets
    unfold optimize_layout at hsheets
    cases hout : placeAll W H (sortPanels (expandPanels ps)) [⟨W, H, [], 0⟩] with
    | error msg =>
      rw [hout] at hsheets
      exact absurd hsheets (by simp [Except.map])
    | ok out =>
      rw [hout] at hsheets
      have hsheets2 : sheets = out.map computeEfficiency := by
        simpa [Except.map] using hsheets.symm
      have hcount := placeAll_ok_count W H _ _ _ hout
      rw [hsheets2]
      have hmap : (out.map computeEfficiency).map (fun s => s.used_space.length) =
          out.map (fun s => s.used_space.length) := by
        rw [List.map_map]
        rfl
      rw [hmap, hcount, sortPanels_length, expandPanels_length]
      simp

/-- One allocation step when an existing sheet accepts. -/
theorem placeAll_cons_some {W H : ℚ} {panel : Panel} {rest : List Panel}
    {sheets sheets2 : List StockSheet}
    (hsome : tryExistingSheets panel sheets = some sheets2) :
    placeAll W H (panel :: rest) sheets = placeAll W H rest sheets2 := by
  conv_lhs => unfold placeAll
  rw [hsome]

/-- One allocation step when every existing sheet rejects. -/
theorem placeAll_cons_none {W H : ℚ} {panel : Panel} {rest : List Panel}
    {sheets : List StockSheet}
    (hnone : tryExistingSheets panel sheets = none) :
    placeAll W H (panel :: rest) sheets =
      if (find_position ⟨W, H, [], 0⟩ panel).can_place then
        placeAll W H rest (sheets ++ [placeRect ⟨W, H, [], 0⟩ panel
          (find_position ⟨W, H, [], 0⟩ panel)])
      else .error "Panel is too large for stock sheet" := by
  conv_lhs => unfold placeAll
  rw [hnone]

/-- When phase 1 of a fitting orientation yields a candidate, the fallback
grid of that orientation is not scanned: the orientation step equals the
phase-1 scan alone. -/
theorem tryOrientation_no_grid {sheet : StockSheet} {step : ℚ} {st : FindState}
    {o : Orientation} (hfit : ¬(o.w > sheet.width ∨ o.h > sheet.height))
    (hany : (priorityPositions sheet o.w o.h).any
      (fun c => validAt sheet.used_space c.1 c.2 o.w o.h) = true) :
    tryOrientation sheet step st o =
      (priorityPositions sheet o.w o.h).foldl
        (considerCand sheet.used_space o.w o.h o.rot) st := by
  unfold tryOrientation
  rw [if_neg hfit]
  have hcp : ((priorityPositions sheet o.w o.h).foldl
      (considerCand sheet.used_space o.w o.h o.rot) st).can_place = true := by
    rw [foldl_considerCand_can_place]
    simp [hany]
  rw [if_pos hcp]

/-! ### Claim theorems (non-computational) -/

/-- **C2.** For every sheet and panel, `find_position`: (a) succeeds iff some
fitting orientation has an admissible phase-1 or phase-2 candidate — so it
reports no position only if both orientations and both phases fail; (b) on
success it returns an admissible considered candidate verbatim, tagged with
its orientation's `rotated` flag, and that candidate minimises `(y, then x)`
over every candidate considered across both orientations; (c) for each
orientation, the fallback grid is scanned only if that orientation's
priority-position phase yields nothing: when phase 1 yields a candidate, the
orientation step equals the phase-1 scan alone, so the grid is not entered. -/
theorem C2_find_position_best (sheet : StockSheet) (panel : Panel) :
    ((find_position sheet panel).can_place = true ↔
      ∃ o ∈ orientations sheet panel, fitsO sheet o ∧
        ((priorityPositions sheet o.w o.h).any
            (fun c => validAt sheet.used_space c.1 c.2 o.w o.h) = true ∨
          (gridPositions sheet o.w o.h (stepSize sheet panel)).any
            (fun c => validAt sheet.used_space c.1 c.2 o.w o.h) = true)) ∧
    ((find_position sheet panel).can_place = true →
      ∃ e ∈ considered sheet panel,
        validFor sheet.used_space e ∧
        find_position sheet panel = ⟨true, e.2.1, e.2.2, e.1.rot⟩ ∧
        ∀ e2 ∈ considered sheet panel, validFor sheet.used_space e2 →
          lex2 (e.2.2, e.2.1) (e2.2.2, e2.2.1)) ∧
    (∀ (st : FindState) (o : Orientation),
      ¬(o.w > sheet.width ∨ o.h > sheet.height) →
      (priorityPositions sheet o.w o.h).any
        (fun c => validAt sheet.used_space c.1 c.2 o.w o.h) = true →
      tryOrientation sheet (stepSize sheet panel) st o =
        (priorityPositions sheet o.w o.h).foldl
          (considerCand sheet.used_space o.w o.h o.rot) st) :=
  ⟨find_position_can_place_iff sheet panel,
    fun h => find_position_success h,
    fun _ _ hfit hany => tryOrientation_no_grid hfit hany⟩

/-- **C4.** In every output of `optimize_layout`, any two placed rectangles
on one sheet have disjoint interiors: each pair satisfies the code's
non-overlap test (one lies at-or-beyond the other along x or along y), and
edge contact (coordinate equality) counts as non-overlapping since the test
uses non-strict inequalities. -/
theorem C4_no_overlap (W H : ℚ) (ps : List Panel) (sheets : List StockSheet)
    (h : optimize_layout W H ps = .ok sheets) :
    ∀ s ∈ sheets, s.used_space.Pairwise rectDisjoint := by
  unfold optimize_layout at h
  cases hout : placeAll W H (sortPanels (expandPanels ps)) [⟨W, H, [], 0⟩] with
  | error msg =>
    rw [hout] at h
    exact absurd h (by simp [Except.map])
  | ok out =>
    rw [hout] at h
    have hsheets : sheets = out.map computeEfficiency := by
      simpa [Except.map] using h.symm
    have hpw := placeAll_ok_pairwise W H _ _ _ hout (by simp)
    subst hsheets
    intro s hs
    obtain ⟨s0, hs0, rfl⟩ := List.mem_map.mp hs
    exact hpw s0 hs0

/-- **C5.** `optimize_layout` is deterministic: two runs on equal stock
dimensions and equal panel lists produce equal outputs (same sheets, same
rect order, same coordinates and rotated flags), because the embedding of
the algorithm is a pure function of its input. -/
theorem C5_deterministic (W1 H1 : ℚ) (ps1 : List Panel) (W2 H2 : ℚ)
    (ps2 : List Panel) (hW : W1 = W2) (hH : H1 = H2) (hps : ps1 = ps2) :
    optimize_layout W1 H1 ps1 = optimize_layout W2 H2 ps2 := by
  subst hW
  subst hH
  subst hps
  rfl

/-- **C7.** The allocator is first-fit: it scans the existing sheets in
creation order and places on the first accepting sheet (leaving all other
sheets unchanged); it reports failure over the existing sheets iff every one
rejects the instance, and only then does the loop consult a fresh sheet,
appending it at the end (or raising when even the fresh sheet rejects). -/
theorem C7_first_fit (panel : Panel) (sheets : List StockSheet) :
    (tryExistingSheets panel sheets = none ↔ ∀ s ∈ sheets, ¬ accepts s panel) ∧
    (∀ (i : ℕ) (hi : i < sheets.length),
      (∀ s ∈ sheets.take i, ¬ accepts s panel) →
      accepts (sheets.get ⟨i, hi⟩) panel →
      tryExistingSheets panel sheets =
        some (sheets.set i (placeRect (sheets.get ⟨i, hi⟩) panel
          (find_position (sheets.get ⟨i, hi⟩) panel)))) ∧
    (∀ (W H : ℚ) (rest : List Panel), tryExistingSheets panel sheets = none →
      placeAll W H (panel :: rest) sheets =
        if (find_position ⟨W, H, [], 0⟩ panel).can_place then
          placeAll W H rest (sheets ++ [placeRect ⟨W, H, [], 0⟩ panel
            (find_position ⟨W, H, [], 0⟩ panel)])
        else .error "Panel is too large for stock sheet") := by
  refine ⟨tryExistingSheets_eq_none_iff panel sheets,
    tryExistingSheets_first_fit panel sheets, ?_⟩
  intro W H rest hnone
  exact placeAll_cons_none hnone

/-- **C9.** The fallback grid scan's step size equals
`0.001 × min(panelWidth, panelHeight, sheetWidth, sheetHeight)`: the code's
left-nested `min(...) * 0.001` equals the spec's formula. -/
theorem C9_step_size (sheet : StockSheet) (panel : Panel) :
    stepSize sheet panel = stepSpec sheet panel := by
  unfold stepSize stepSpec
  rw [min_assoc, mul_one_div]

/-- **C10.** On an empty panel-spec list with positive stock dimensions,
`optimize_layout` returns exactly one sheet with no placed rects and
efficiency 0 — not an empty sheet list. -/
theorem C10_empty_specs (W H : ℚ) (hW : 0 < W) (hH : 0 < H) :
    optimize_layout W H [] = .ok [⟨W, H, [], 0⟩] := by
  unfold optimize_layout
  rw [show sortPanels (expandPanels []) = [] from rfl,
    show placeAll W H [] [⟨W, H, [], 0⟩] = .ok [⟨W, H, [], 0⟩] from rfl]
  show Except.ok [computeEfficiency ⟨W, H, [], 0⟩] = _
  unfold computeEfficiency
  simp

/-- The code's ascending comparison on negated keys is exactly the
descending comparison on the spec's positive key. -/
theorem panelLE_iff_specGE (p q : Panel) : panelLE p q ↔ specGE p q := by
  unfold panelLE specGE panelKey specKey lex3 lex2
  dsimp only
  constructor
  · rintro (h | ⟨e, h2 | ⟨e2, h3⟩⟩)
    · exact Or.inl (by simpa using h)
    · exact Or.inr ⟨by linarith, Or.inl (by simpa using h2)⟩
    · exact Or.inr ⟨by linarith, Or.inr ⟨by linarith, by simpa using h3⟩⟩
  · rintro (h | ⟨e, h2 | ⟨e2, h3⟩⟩)
    · exact Or.inl (by simpa using h)
    · exact Or.inr ⟨by linarith, Or.inl (by simpa using h2)⟩
    · exact Or.inr ⟨by linarith, Or.inr ⟨by linarith, by simpa using h3⟩⟩

/-- **C6.** The Normalizer expands each spec into quantity-many unit
instances (total count `Σ quantities`, each of quantity 1 with its spec's
dimensions, in input order) and sorts them descending by the key
`(max(width, height), width × height, min(width, height))` computed from the
spec's dimensions; the sort is stable, so key-equal instances preserve their
original relative order. -/
theorem C6_normalizer (ps : List Panel) :
    ((expandPanels ps).length = (ps.map (fun p => p.quantity)).sum ∧
      ∀ q ∈ expandPanels ps, q.quantity = 1 ∧
        ∃ p ∈ ps, q.width = p.width ∧ q.height = p.height) ∧
    List.Perm (sortPanels (expandPanels ps)) (expandPanels ps) ∧
    (sortPanels (expandPanels ps)).Pairwise specGE ∧
    (∀ a b : Panel, specKey a = specKey b → List.Sublist [a, b] (expandPanels ps) →
      List.Sublist [a, b] (sortPanels (expandPanels ps))) := by
  refine ⟨⟨expandPanels_length ps, ?_⟩, List.perm_insertionSort _ _, ?_, ?_⟩
  · intro q hq
    obtain ⟨p, hp, _, rfl⟩ := mem_expandPanels.mp hq
    exact ⟨rfl, p, hp, rfl, rfl⟩
  · have hs := List.sorted_insertionSort panelLE (expandPanels ps)
    exact hs.imp (fun h => (panelLE_iff_specGE _ _).mp h)
  · intro a b hkey hab
    have hle : panelLE a b := by
      rw [panelLE_iff_specGE]
      unfold specGE
      rw [hkey]
      exact Or.inr ⟨rfl, lex2_refl _⟩
    exact List.pair_sublist_insertionSort hle hab

/-! ### Bounds on the fallback grid -/

/-- Every `arange` value lies in `[start, stop)` when the step is positive. -/
theorem mem_arange {start stop step v : ℚ} (hstep : 0 < step)
    (hv : v ∈ arange start stop step) : start ≤ v ∧ v < stop := by
  unfold arange at hv
  obtain ⟨i, hi, rfl⟩ := List.mem_map.mp hv
  rw [List.mem_range] at hi
  constructor
  · have hnn : (0 : ℚ) ≤ (i : ℚ) * step :=
      mul_nonneg (by positivity) hstep.le
    linarith
  · have hi2 : (i : ℤ) < ⌈(stop - start) / step⌉ := Int.lt_toNat.mp hi
    have h1 : ((i : ℤ) : ℚ) ≤ (⌈(stop - start) / step⌉ : ℚ) - 1 := by
      have := Int.lt_iff_add_one_le.mp hi2
      exact_mod_cast by exact_mod_cast (by linarith [this] : (i : ℤ) ≤ ⌈(stop - start) / step⌉ - 1)
    have h2 : (⌈(stop - start) / step⌉ : ℚ) < (stop - start) / step + 1 :=
      Int.ceil_lt_add_one _
    have h3 : (i : ℚ) < (stop - start) / step := by
      push_cast at h1
      linarith
    have h4 : (i : ℚ) * step < ((stop - start) / step) * step :=
      (mul_lt_mul_right hstep).mpr h3
    rw [div_mul_cancel₀ _ (ne_of_gt hstep)] at h4
    linarith

/-- Every fallback grid candidate is componentwise within the scan bounds. -/
theorem mem_gridPositions {sheet : StockSheet} {w h step : ℚ} {c : ℚ × ℚ}
    (hc : c ∈ gridPositions sheet w h step) :
    c.1 ∈ arange 0 (sheet.width - w + step) step ∧
      c.2 ∈ arange 0 (sheet.height - h + step) step := by
  unfold gridPositions at hc
  obtain ⟨x, hx, hc2⟩ := List.mem_flatMap.mp hc
  obtain ⟨y, hy, rfl⟩ := List.mem_map.mp hc2
  exact ⟨hx, hy⟩

unseal Rat.add Rat.sub Rat.mul Rat.inv in
/-- The sheet already holding the 80×80 rect rejects a second 80×80 panel:
every priority position overlaps it, and every fallback grid candidate
(`x, y < 20 + step < 80`) overlaps it as well. -/
theorem fp_80_second_fails :
    (find_position ⟨100, 100, [⟨0, 0, 80, 80⟩], 0⟩ ⟨80, 80, 1⟩).can_place = false := by
  rw [← Bool.not_eq_true, find_position_can_place_iff]
  rintro ⟨o, ho, hfit, hany⟩
  rw [mem_orientations] at ho
  have ho2 : o = ⟨80, 80, false⟩ := by
    rcases ho with h | ⟨hne, _⟩
    · exact h
    · exact absurd rfl hne
  subst ho2
  rcases hany with hany | hany
  · revert hany
    decide
  · rw [List.any_eq_true] at hany
    obtain ⟨c, hc, hvalid⟩ := hany
    have hb := mem_gridPositions hc
    have hstep : stepSize ⟨100, 100, [⟨0, 0, 80, 80⟩], 0⟩ ⟨80, 80, 1⟩ = 2/25 := by
      decide
    rw [hstep] at hb
    have hx := mem_arange (by norm_num) hb.1
    have hy := mem_arange (by norm_num) hb.2
    simp only [validAt, List.all_cons, List.all_nil, Bool.and_true, clearOf,
      decide_eq_true_eq] at hvalid
    obtain ⟨hx0, hx1⟩ := hx
    obtain ⟨hy0, hy1⟩ := hy
    rcases hvalid with h1 | h1 | h1 | h1 <;> · simp only at h1 hx1 hy1; linarith

unseal Rat.add Rat.sub Rat.mul Rat.inv in
/-- **C8.** On stock 100×100 with one 80×80 spec of quantity 2,
`optimize_layout` returns exactly two sheets, each holding exactly one
80×80 rect at the origin, each with efficiency 64. -/
theorem C8_scenario_B :
    optimize_layout 100 100 [⟨80, 80, 2⟩] =
      .ok [⟨100, 100, [⟨0, 0, 80, 80⟩], 64⟩, ⟨100, 100, [⟨0, 0, 80, 80⟩], 64⟩] := by
  unfold optimize_layout
  have hqueue : sortPanels (expandPanels [⟨80, 80, 2⟩]) = [⟨80, 80, 1⟩, ⟨80, 80, 1⟩] := by
    decide
  rw [hqueue]
  have hfp0 : find_position ⟨100, 100, [], 0⟩ ⟨80, 80, 1⟩ = ⟨true, 0, 0, false⟩ := by
    decide
  have htry1 : tryExistingSheets ⟨80, 80, 1⟩ [⟨100, 100, [], 0⟩] =
      some [⟨100, 100, [⟨0, 0, 80, 80⟩], 0⟩] := by
    unfold tryExistingSheets
    rw [hfp0]
    rfl
  have hno : ¬ (find_position ⟨100, 100, [⟨0, 0, 80, 80⟩], 0⟩ ⟨80, 80, 1⟩).can_place
      = true := by
    rw [fp_80_second_fails]
    simp
  have htry2 : tryExistingSheets ⟨80, 80, 1⟩ [⟨100, 100, [⟨0, 0, 80, 80⟩], 0⟩] = none := by
    unfold tryExistingSheets
    rw [if_neg hno]
    rfl
  have hplace : placeAll 100 100 [⟨80, 80, 1⟩, ⟨80, 80, 1⟩] [⟨100, 100, [], 0⟩] =
      .ok [⟨100, 100, [⟨0, 0, 80, 80⟩], 0⟩, ⟨100, 100, [⟨0, 0, 80, 80⟩], 0⟩] := by
    rw [placeAll_cons_some htry1, placeAll_cons_none htry2, hfp0]
    rfl
  rw [hplace]
  have heff : computeEfficiency ⟨100, 100, [⟨0, 0, 80, 80⟩], 0⟩ =
      ⟨100, 100, [⟨0, 0, 80, 80⟩], 64⟩ := by decide
  show Except.ok [computeEfficiency ⟨100, 100, [⟨0, 0, 80, 80⟩], 0⟩,
    computeEfficiency ⟨100, 100, [⟨0, 0, 80, 80⟩], 0⟩] = _
  rw [heff]

set_option maxRecDepth 40000 in
unseal Rat.add Rat.sub Rat.mul Rat.inv in
/-- **C1 (refuted by the code).** Containment fails: on stock 1000×1000 with
specs 1000×1.5 (qty 1) and 999×999 (qty 1), the bottom strip forces the
999×999 panel into the fallback grid scan, whose `np.arange` upper bound
`sheet.height - h + step` emits the candidate `y = 1.998 > 1000 - 999`; the
panel is placed there and `y + h = 1000.998` exceeds the sheet height. -/
theorem C1_containment_violated :
    ∃ sheets, optimize_layout 1000 1000 [⟨1000, 3/2, 1⟩, ⟨999, 999, 1⟩] = .ok sheets ∧
      ∃ s ∈ sheets, ∃ r ∈ s.used_space, s.height < r.y + r.h := by
  refine ⟨[⟨1000, 1000, [⟨0, 0, 1000, 3/2⟩, ⟨0, 999/500, 999, 999⟩], 999501/10000⟩],
    by decide, ?_⟩
  refine ⟨_, List.mem_singleton_self _, ⟨0, 999/500, 999, 999⟩,
    List.mem_cons_of_mem _ (List.mem_cons_self _ _), by norm_num⟩

/-! ### Witnesses -/

unseal Rat.add Rat.sub Rat.mul Rat.inv in
/-- Witness for C2 at a concrete sheet and panel. -/
theorem C2_witness :
    ∃ e ∈ considered ⟨10, 10, [], 0⟩ ⟨4, 3, 1⟩,
      validFor [] e ∧
      find_position ⟨10, 10, [], 0⟩ ⟨4, 3, 1⟩ = ⟨true, e.2.1, e.2.2, e.1.rot⟩ ∧
      ∀ e2 ∈ considered ⟨10, 10, [], 0⟩ ⟨4, 3, 1⟩, validFor [] e2 →
        lex2 (e.2.2, e.2.1) (e2.2.2, e2.2.1) :=
  (C2_find_position_best ⟨10, 10, [], 0⟩ ⟨4, 3, 1⟩).2.1 (by decide)

unseal Rat.add Rat.sub Rat.mul Rat.inv in
/-- Witness for C3: a 20×20 panel on 10×10 stock raises the error. -/
theorem C3_witness : ∃ msg, optimize_layout 10 10 [⟨20, 20, 1⟩] = .error msg :=
  ((C3_input_error_iff 10 10 [⟨20, 20, 1⟩] (by decide)).1).mpr
    ⟨⟨20, 20, 1⟩, List.mem_singleton_self _, by norm_num⟩

unseal Rat.add Rat.sub Rat.mul Rat.inv in
/-- Witness for C4 on a concrete run (two 50×40 panels on one sheet). -/
theorem C4_witness :
    (⟨100, 100, [⟨0, 0, 50, 40⟩, ⟨50, 0, 50, 40⟩], 40⟩ : StockSheet).used_space.Pairwise
      rectDisjoint :=
  C4_no_overlap 100 100 [⟨50, 40, 2⟩]
    [⟨100, 100, [⟨0, 0, 50, 40⟩, ⟨50, 0, 50, 40⟩], 40⟩] (by decide)
    ⟨100, 100, [⟨0, 0, 50, 40⟩, ⟨50, 0, 50, 40⟩], 40⟩ (List.mem_singleton_self _)

/-- Witness for C5 at a concrete input. -/
theorem C5_witness :
    optimize_layout 10 10 [⟨2, 3, 1⟩] = optimize_layout 10 10 [⟨2, 3, 1⟩] :=
  C5_deterministic 10 10 [⟨2, 3, 1⟩] 10 10 [⟨2, 3, 1⟩] rfl rfl rfl

unseal Rat.add Rat.sub Rat.mul Rat.inv in
/-- Witness for C6's stability clause: two key-equal instances (2×3 and 3×2)
keep their input order through the sort. -/
theorem C6_witness :
    List.Sublist [(⟨2, 3, 1⟩ : Panel), ⟨3, 2, 1⟩]
      (sortPanels (expandPanels [⟨2, 3, 2⟩, ⟨3, 2, 1⟩])) :=
  (C6_normalizer [⟨2, 3, 2⟩, ⟨3, 2, 1⟩]).2.2.2 ⟨2, 3, 1⟩ ⟨3, 2, 1⟩
    (by decide) (by decide)

unseal Rat.add Rat.sub Rat.mul Rat.inv in
/-- Witness for C7: with a full first sheet, the second sheet (index 1) is
the first accepting one and receives the placement. -/
theorem C7_witness :
    tryExistingSheets ⟨10, 10, 1⟩
        [⟨10, 10, [⟨0, 0, 10, 10⟩], 0⟩, ⟨10, 10, [], 0⟩] =
      some [⟨10, 10, [⟨0, 0, 10, 10⟩], 0⟩,
        placeRect ⟨10, 10, [], 0⟩ ⟨10, 10, 1⟩
          (find_position ⟨10, 10, [], 0⟩ ⟨10, 10, 1⟩)] := by
  have h := (C7_first_fit ⟨10, 10, 1⟩
    [⟨10, 10, [⟨0, 0, 10, 10⟩], 0⟩, ⟨10, 10, [], 0⟩]).2.1 1
    (by decide) (by decide) (by decide)
  exact h

unseal Rat.add Rat.sub Rat.mul Rat.inv in
/-- Witness for C10 at concrete positive stock dimensions. -/
theorem C10_witness : optimize_layout 10 10 [] = .ok [⟨10, 10, [], 0⟩] :=
  C10_empty_specs 10 10 (by norm_num) (by norm_num)

end PPO
